import Mathlib

/-!
# PicoMemcard protocol sniffer: sample tagging and frame segmentation

A shallow embedding of `src/src/memcard_sniffer.c`:

* the interrupt handler `pio0_irq0`, as far as it touches the shared counter `restartProto`;
* the sampling loop of `main`, which fills the three sample arrays, with the runs of the
  handler placed before or after its load of `restartProto`;
* the printing loop at the end of `main`, which walks the three sample arrays and prints one
  `Target= / TX: / RX:` block whenever it meets a sample whose `restartBuffer` entry is set.

The `printf` calls of the printing loop are kept as structured records (`Block`): one record
per execution of the body of `if (restartBuffer[i])`.  `Block.text` spells out the characters
those calls write.
-/

namespace MemcardSniffer

/-! ## Data model -/

/-- Capacity of the three sample arrays (`#define BUFF_LEN 4096`). -/
def BUFF_LEN : Nat := 4096

/-- A `uint8_t` value. -/
abbrev Byte := Fin 256

/-- The global arrays `cmdBuffer`, `datBuffer` and `restartBuffer`, indexed by sample number. -/
structure Buffers where
  cmdBuffer : Nat → Byte
  datBuffer : Nat → Byte
  restartBuffer : Nat → Bool

/-! ## Resync record -/

/-- Effect of one run of the handler `pio0_irq0` on `restartProto`: the statement
`restartProto++` on a `volatile uint8_t`. -/
def pio0_irq0 (restartProto : Nat) : Nat := (restartProto + 1) % 256

/-- The value stored by `restartBuffer[i] = restartProto / 2 % 2;` (an `int` converted to
`bool`, so any non-zero value is `true`). -/
def restartTag (restartProto : Nat) : Bool := decide (restartProto / 2 % 2 ≠ 0)

/-- Tags written by successive iterations of the sampling loop.  The argument is the value
of `restartProto` when the first interval begins; each list entry is the number of handler
runs that take place before the record is read in that iteration.  The loop reads the
record, stores the tag, and then executes `restartProto = 0;`. -/
def samplingTags (restartProto : Nat) : List Nat → List Bool
  | [] => []
  | f :: fs => restartTag (pio0_irq0^[f] restartProto) :: samplingTags 0 fs

/-! ## Printing loop -/

/-- The `switch (cmdBuffer[curStart])` of the printing loop: the label it prints. -/
def targetLabel (b : Byte) : List Char :=
  if b.val = 0x01 then "JOY".toList
  else if b.val = 0x81 then "MC".toList
  else "UNKNOWN".toList

/-- What one execution of the body of `if (restartBuffer[i])` prints.
`curStart` and `i` are the values of the loop variables at that moment, `byteLen` is the
local `const int byteLen = i-curStart`, `target` is the label of the `Target=` line
(`none` when the test `byteLen >= 1` fails and that line is skipped), `tx` and `rx` are the
bytes printed by the two inner loops. -/
structure Block where
  curStart : Nat
  i : Nat
  byteLen : Int
  target : Option (List Char)
  tx : List Byte
  rx : List Byte
deriving DecidableEq

/-- Body of `if (restartBuffer[i]) { ... }` up to, but not including, `curStart = i`. -/
def emitBlock (buf : Buffers) (curStart i : Nat) : Block :=
  let byteLen : Int := (i : Int) - (curStart : Int)
  { curStart := curStart
    i := i
    byteLen := byteLen
    target := if byteLen ≥ 1 then some (targetLabel (buf.cmdBuffer curStart)) else none
    tx := (List.range byteLen.toNat).map (fun j => buf.cmdBuffer (curStart + j))
    rx := (List.range byteLen.toNat).map (fun j => buf.datBuffer (curStart + j)) }

/-- One iteration of `for(int i = 0; i < BUFF_LEN; i++)`.  The state is the variable
`curStart` together with the blocks printed so far. -/
def printStep (buf : Buffers) (st : Nat × List Block) (i : Nat) : Nat × List Block :=
  if buf.restartBuffer i then (i, st.2 ++ [emitBlock buf st.1 i]) else st

/-- The printing loop run for `i = 0, ..., n - 1`, starting from `int curStart = 0`. -/
def printLoop (buf : Buffers) (n : Nat) : Nat × List Block :=
  (List.range n).foldl (printStep buf) (0, [])

/-- Blocks printed by the loop over a buffer of `n` samples. -/
def segmenter (n : Nat) (buf : Buffers) : List Block := (printLoop buf n).2

/-- The printing loop of `main`, over all `BUFF_LEN` samples. -/
def mainPrint (buf : Buffers) : List Block := segmenter BUFF_LEN buf

/-- A block is a transaction when its `Target=` line was printed. -/
def Block.isTransaction (b : Block) : Bool := b.target.isSome

/-! ## Output text -/

/-- Output of `printf("%02X", n)`: the upper-case hexadecimal digits of `n`, padded on the
left with zeros (`Char.ofNat 48`) to at least two characters. -/
def fmt02X (n : Nat) : List Char :=
  let ds := (Nat.toDigits 16 n).map Char.toUpper
  List.replicate (2 - ds.length) (Char.ofNat 48) ++ ds

/-- The inner loops `for (j...) printf("%02X ", ...)`: every byte is followed by a space. -/
def printHexBytes (bs : List Byte) : List Char :=
  bs.flatMap (fun b => fmt02X b.val ++ " ".toList)

/-- The characters written for one block, in the order of the `printf` calls. -/
def Block.text (b : Block) : List Char :=
  (match b.target with
   | some l => "Target=".toList ++ l ++ "\n".toList
   | none => []) ++
  "TX: ".toList ++ printHexBytes b.tx ++ "\n".toList ++
  "RX: ".toList ++ printHexBytes b.rx ++ "\n\n".toList

/-- Everything the printing loop writes for a buffer of `n` samples. -/
def transcript (n : Nat) (buf : Buffers) : List Char :=
  (segmenter n buf).flatMap Block.text

/-! ## Concrete buffers used as test inputs -/

/-- A buffer given by its command bytes, its response bytes and the list of marked indices;
bytes beyond the lists are 0. -/
def bufferOf (cmd dat marks : List Nat) : Buffers :=
  { cmdBuffer := fun i => Fin.ofNat (cmd.getD i 0)
    datBuffer := fun i => Fin.ofNat (dat.getD i 0)
    restartBuffer := fun i => marks.contains i }

/-- Six samples with marks at indices 0, 2 and 5 and command bytes
`01 42 81 10 20 30`; the response bytes are left open. -/
def scenarioBuf (dat : Nat → Byte) : Buffers :=
  { cmdBuffer := fun i => Fin.ofNat ([0x01, 0x42, 0x81, 0x10, 0x20, 0x30].getD i 0)
    datBuffer := dat
    restartBuffer := fun i => [0, 2, 5].contains i }

/-- Two samples, the only mark on the second one. -/
def leadingBuf : Buffers := bufferOf [0x42, 0x01] [0x07, 0x08] [1]

/-- A buffer with a mark on every eighth sample, starting with sample 0. -/
def stressBuf (cmd dat : Nat → Byte) : Buffers :=
  { cmdBuffer := cmd
    datBuffer := dat
    restartBuffer := fun i => decide (i % 8 = 0) }

/-! ## Reading the transcript back -/

/-- The upper-case hexadecimal digit for a value below 16 (a question mark, `Char.ofNat 63`,
for any other value). -/
def hexUpperDigit (d : Nat) : Char := "0123456789ABCDEF".toList.getD d (Char.ofNat 63)

/-- The value of an upper-case hexadecimal digit. -/
def hexDigitValue (c : Char) : Option Nat :=
  let k := "0123456789ABCDEF".toList.indexOf c
  if k < 16 then some k else none

/-- Reads a group of upper-case hexadecimal digits, most significant digit first. -/
def parseHex (cs : List Char) : Option Nat :=
  cs.foldl (fun acc c => acc.bind (fun a => (hexDigitValue c).map (fun d => 16 * a + d)))
    (some 0)

/-- The transcript block as the interface description words it: a `Target=` line, a `TX: `
line and an `RX: ` line whose two-digit bytes are separated by single spaces, and a blank
line. -/
def specBlockText (label : List Char) (tx rx : List Byte) : List Char :=
  "Target=".toList ++ label ++ "\n".toList ++
  "TX: ".toList ++ " ".toList.intercalate (tx.map (fun b => fmt02X b.val)) ++ "\n".toList ++
  "RX: ".toList ++ " ".toList.intercalate (rx.map (fun b => fmt02X b.val)) ++ "\n".toList ++
  "\n".toList

/-! ## Counted loops -/

/-- The loop `for (int i = ...; i < bound; i++) body`, entered with the loop variable at `i`
and allowed at most `fuel` evaluations of its test.  The result is the final value of the
loop variable together with the final state, or `none` when the fuel runs out first. -/
def forLoop {σ : Type} (bound : Nat) (body : σ → Nat → σ) : Nat → Nat → σ → Option (Nat × σ)
  | 0, _, _ => none
  | fuel + 1, i, s =>
    if i < bound then forLoop bound body fuel (i + 1) (body s i) else some (i, s)

/-! ## Sampling loop -/

/-- What the surroundings do during one iteration of the sampling loop: the bytes handed out
by the two calls of `read_byte_blocking`, the number of runs of the handler `pio0_irq0`
between the previous `restartProto = 0;` (or the start of the loop) and the load of
`restartProto`, and the number of runs between that load and the store `restartProto = 0;`.
The handler is an interrupt on the core that runs the loop, so each run is atomic with
respect to the loop. -/
structure Interval where
  cmd : Byte
  dat : Byte
  firesBefore : Nat
  firesMid : Nat

/-- The globals touched by the sampling loop.  `cmdWrites`, `datWrites` and `restartWrites`
log the indices stored to in the three arrays, and `reads` logs the values loaded from
`restartProto`; these four lists are bookkeeping only. -/
structure Sampler where
  buf : Buffers
  restartProto : Nat
  cmdWrites : List Nat
  datWrites : List Nat
  restartWrites : List Nat
  reads : List Nat

/-- The globals at program start: zero-initialised arrays and
`volatile uint8_t restartProto = true`. -/
def initSampler : Sampler :=
  { buf := { cmdBuffer := fun _ => 0, datBuffer := fun _ => 0, restartBuffer := fun _ => false }
    restartProto := 1
    cmdWrites := []
    datWrites := []
    restartWrites := []
    reads := [] }

/-- The handler `pio0_irq0` run `k` times in a row. -/
def handlerRuns (k : Nat) (s : Sampler) : Sampler :=
  { s with restartProto := pio0_irq0^[k] s.restartProto }

/-- The statements `cmdBuffer[i] = read_byte_blocking(...)` and
`datBuffer[i] = read_byte_blocking(...)`. -/
def readBytes (e : Interval) (i : Nat) (s : Sampler) : Sampler :=
  { s with
    buf := { s.buf with
      cmdBuffer := Function.update s.buf.cmdBuffer i e.cmd
      datBuffer := Function.update s.buf.datBuffer i e.dat }
    cmdWrites := s.cmdWrites ++ [i]
    datWrites := s.datWrites ++ [i] }

/-- The statement `restartBuffer[i] = restartProto / 2 % 2;`. -/
def storeTag (i : Nat) (s : Sampler) : Sampler :=
  { s with
    buf := { s.buf with
      restartBuffer := Function.update s.buf.restartBuffer i (restartTag s.restartProto) }
    restartWrites := s.restartWrites ++ [i]
    reads := s.reads ++ [s.restartProto] }

/-- The statement `restartProto = 0;`. -/
def resetProto (s : Sampler) : Sampler := { s with restartProto := 0 }

/-- One iteration of the sampling loop, with the handler runs of `env i` woven in. -/
def sampleStep (env : Nat → Interval) (s : Sampler) (i : Nat) : Sampler :=
  resetProto (handlerRuns (env i).firesMid
    (storeTag i (handlerRuns (env i).firesBefore (readBytes (env i) i s))))

/-- The sampling loop run for `i = 0, ..., n - 1` from the initial globals. -/
def samplingLoop (n : Nat) (env : Nat → Interval) : Sampler :=
  (List.range n).foldl (sampleStep env) initSampler

/-- The sampling loop of `main`, over all `BUFF_LEN` samples. -/
def mainSampling (env : Nat → Interval) : Sampler := samplingLoop BUFF_LEN env

/-- The value of `restartProto` at the start of iteration `i`: `true` before the first
iteration, `0` after every reset. -/
def recordAtStart (i : Nat) : Nat := if i = 0 then 1 else 0

/-! ## Printing loop with the arrays as part of the state -/

/-- One iteration of the printing loop, the state being the three arrays, `curStart` and the
blocks printed so far.  No statement of the loop body assigns to an array. -/
def printStepState (st : Buffers × Nat × List Block) (i : Nat) : Buffers × Nat × List Block :=
  if st.1.restartBuffer i then (st.1, i, st.2.2 ++ [emitBlock st.1 st.2.1 i]) else st

/-- The printing loop over `n` samples as a transformer of the arrays. -/
def printPass (n : Nat) (buf : Buffers) : Buffers × Nat × List Block :=
  (List.range n).foldl printStepState (buf, 0, [])

/-! ## Surroundings used as test inputs -/

/-- Surroundings given by a list of intervals; beyond the list nothing happens and the
channels deliver zero bytes. -/
def envOf (l : List Interval) (i : Nat) : Interval :=
  l.getD i { cmd := 0, dat := 0, firesBefore := 0, firesMid := 0 }

/-- Two samples; the handler runs twice between the load and the reset of iteration 0 and
at no other time. -/
def lostFireEnv : Nat → Interval := envOf [⟨0x81, 0x5A, 0, 2⟩, ⟨0x10, 0x00, 0, 0⟩]

/-- Two samples with the same bytes as `lostFireEnv`; the handler never runs. -/
def quietEnv : Nat → Interval := envOf [⟨0x81, 0x5A, 0, 0⟩, ⟨0x10, 0x00, 0, 0⟩]

/-- Two samples; the handler runs twice before the load of iteration 1 and once between
that load and the reset. -/
def doubleFireEnv : Nat → Interval := envOf [⟨0x81, 0x5A, 0, 0⟩, ⟨0x10, 0x00, 2, 1⟩]

/-- Two samples; the handler runs once before the load of each iteration. -/
def singleFireEnv : Nat → Interval := envOf [⟨0x81, 0x5A, 1, 0⟩, ⟨0x10, 0x00, 1, 0⟩]

/-! ## Basic facts about the printing loop -/

theorem printLoop_zero (buf : Buffers) : printLoop buf 0 = (0, []) := rfl

theorem printLoop_succ (buf : Buffers) (n : Nat) :
    printLoop buf (n + 1) = printStep buf (printLoop buf n) n := by
  simp [printLoop, List.range_succ, List.foldl_append]

theorem curStart_succ (buf : Buffers) (n : Nat) :
    (printLoop buf (n + 1)).1 = if buf.restartBuffer n then n else (printLoop buf n).1 := by
  rw [printLoop_succ, printStep]
  split <;> rfl

theorem segmenter_succ (buf : Buffers) (n : Nat) :
    segmenter (n + 1) buf =
      if buf.restartBuffer n then segmenter n buf ++ [emitBlock buf (printLoop buf n).1 n]
      else segmenter n buf := by
  unfold segmenter
  rw [printLoop_succ, printStep]
  split <;> rfl

/-- The cursor never runs ahead of the loop index. -/
theorem curStart_le (buf : Buffers) (n : Nat) : (printLoop buf n).1 ≤ n := by
  induction n with
  | zero => simp [printLoop_zero]
  | succ n ih =>
    rw [curStart_succ]
    split <;> omega

/-- After at least one iteration the cursor is strictly behind the loop index. -/
theorem curStart_lt (buf : Buffers) (n : Nat) (hn : 0 < n) : (printLoop buf n).1 < n := by
  obtain ⟨m, rfl⟩ : ∃ m, n = m + 1 := ⟨n - 1, by omega⟩
  rw [curStart_succ]
  have := curStart_le buf m
  split <;> omega

/-- The cursor is either still at its initial value or sits on a marked sample. -/
theorem curStart_zero_or_mark (buf : Buffers) (n : Nat) :
    (printLoop buf n).1 = 0 ∨ buf.restartBuffer (printLoop buf n).1 = true := by
  induction n with
  | zero => simp [printLoop_zero]
  | succ n ih =>
    rw [curStart_succ]
    by_cases h : buf.restartBuffer n = true
    · simp [h]
    · simpa [h] using ih

/-- Once a marked sample has been passed, the cursor is at or beyond it. -/
theorem le_curStart_of_mark (buf : Buffers) (b n : Nat) (hb : b < n)
    (hm : buf.restartBuffer b = true) : b ≤ (printLoop buf n).1 := by
  induction n with
  | zero => omega
  | succ n ih =>
    rw [curStart_succ]
    by_cases h : buf.restartBuffer n = true
    · simp only [h, if_true]; omega
    · simp only [h]
      have hbn : b ≠ n := fun e => h (e ▸ hm)
      exact ih (by omega)

/-- With the most recent mark at `a`, the cursor is exactly `a`. -/
theorem curStart_eq_of_mark (buf : Buffers) (a n : Nat) (han : a < n)
    (hm : buf.restartBuffer a = true)
    (hnone : ∀ k, a < k → k < n → buf.restartBuffer k = false) :
    (printLoop buf n).1 = a := by
  induction n with
  | zero => omega
  | succ n ih =>
    rw [curStart_succ]
    by_cases h : buf.restartBuffer n = true
    · have : ¬ a < n := fun hlt => by
        have := hnone n hlt (by omega)
        simp [h] at this
      simp only [h, if_true]; omega
    · have hne : a ≠ n := fun e => h (e ▸ hm)
      simp only [h]
      exact ih (by omega) (fun k hk hkn => hnone k hk (by omega))

/-- Before any mark has been met the cursor is still `0`. -/
theorem curStart_eq_zero (buf : Buffers) (n : Nat)
    (hnone : ∀ k, k < n → buf.restartBuffer k = false) : (printLoop buf n).1 = 0 := by
  induction n with
  | zero => rfl
  | succ n ih =>
    rw [curStart_succ, hnone n (by omega)]
    simpa using ih (fun k hk => hnone k (by omega))

/-- The printed blocks, listed by the marked index that closes them. -/
theorem segmenter_eq_map (buf : Buffers) (n : Nat) :
    segmenter n buf =
      ((List.range n).filter buf.restartBuffer).map
        (fun i => emitBlock buf (printLoop buf i).1 i) := by
  induction n with
  | zero => rfl
  | succ n ih =>
    rw [segmenter_succ, List.range_succ, List.filter_append, List.map_append, ← ih]
    by_cases h : buf.restartBuffer n = true <;> simp [h]

theorem mem_segmenter (buf : Buffers) (n : Nat) (blk : Block) :
    blk ∈ segmenter n buf ↔
      ∃ i, i < n ∧ buf.restartBuffer i = true ∧ blk = emitBlock buf (printLoop buf i).1 i := by
  rw [segmenter_eq_map]
  simp only [List.mem_map, List.mem_filter, List.mem_range]
  constructor
  · rintro ⟨i, ⟨hi, hm⟩, rfl⟩
    exact ⟨i, hi, hm, rfl⟩
  · rintro ⟨i, hi, hm, rfl⟩
    exact ⟨i, ⟨hi, hm⟩, rfl⟩

theorem filter_range_eq_nil (p : Nat → Bool) (n : Nat) (hp : ∀ i, i < n → p i = false) :
    (List.range n).filter p = [] := by
  rw [List.filter_eq_nil_iff]
  intro i hi
  simp [hp i (List.mem_range.mp hi)]

theorem filter_range_eq_singleton (p : Nat → Bool) (n b : Nat) (hb : b < n)
    (hp : ∀ i, i < n → (p i = true ↔ i = b)) : (List.range n).filter p = [b] := by
  induction n with
  | zero => omega
  | succ n ih =>
    rw [List.range_succ, List.filter_append]
    by_cases hbn : b = n
    · subst hbn
      have h1 : (List.range b).filter p = [] := by
        apply filter_range_eq_nil
        intro i hi
        have := hp i (by omega)
        by_cases hpi : p i = true
        · have := this.mp hpi; omega
        · simpa using hpi
      have h2 : p b = true := (hp b (by omega)).mpr rfl
      simp [h1, h2]
    · have h1 := ih (by omega) (fun i hi => hp i (by omega))
      have h2 : p n = false := by
        by_cases hpn : p n = true
        · have := (hp n (by omega)).mp hpn; omega
        · simpa using hpn
      simp [h1, h2]

/-- The first marked index heads the list of marked indices. -/
theorem filter_range_head (p : Nat → Bool) (n f : Nat) (hf : f < n) (hp : p f = true)
    (hfirst : ∀ k, k < f → p k = false) :
    ∃ rest, (List.range n).filter p = f :: rest := by
  induction n with
  | zero => omega
  | succ n ih =>
    rw [List.range_succ, List.filter_append]
    by_cases hfn : f = n
    · subst hfn
      rw [filter_range_eq_nil p f hfirst]
      exact ⟨[], by simp [hp]⟩
    · obtain ⟨rest, hrest⟩ := ih (by omega)
      exact ⟨rest ++ List.filter p [n], by rw [hrest]; rfl⟩

theorem emitBlock_of_le (buf : Buffers) (a b : Nat) (hab : a ≤ b) :
    emitBlock buf a b =
      { curStart := a, i := b, byteLen := ((b - a : Nat) : Int)
        target := if 1 ≤ b - a then some (targetLabel (buf.cmdBuffer a)) else none
        tx := (List.range (b - a)).map (fun j => buf.cmdBuffer (a + j))
        rx := (List.range (b - a)).map (fun j => buf.datBuffer (a + j)) } := by
  have h1 : ((b : Int) - (a : Int)) = ((b - a : Nat) : Int) := by omega
  unfold emitBlock
  simp only [h1, Int.toNat_ofNat]
  congr 1
  by_cases h : 1 ≤ b - a
  · have : (1 : Int) ≤ ((b - a : Nat) : Int) := by omega
    simp [h, this]
  · have : ¬ (1 : Int) ≤ ((b - a : Nat) : Int) := by omega
    simp [h, this]

/-- Between two consecutive marks `a < b` the only printed block that overlaps `[a, b)` is
the one closed at `b`, and it was opened at `a`. -/
theorem filter_overlap_consecutive (n : Nat) (buf : Buffers) (a b : Nat)
    (hab : a < b) (hbn : b < n)
    (ha : buf.restartBuffer a = true) (hb : buf.restartBuffer b = true)
    (hnone : ∀ k, a < k → k < b → buf.restartBuffer k = false) :
    (segmenter n buf).filter (fun x => decide (x.curStart < b ∧ a < x.i)) =
      [emitBlock buf a b] := by
  have hcs : (printLoop buf b).1 = a := curStart_eq_of_mark buf a b hab ha hnone
  rw [segmenter_eq_map, List.filter_map, List.filter_filter]
  rw [filter_range_eq_singleton _ n b hbn]
  · simp [hcs]
  · intro i hi
    simp only [Function.comp, emitBlock, Bool.and_eq_true, decide_eq_true_eq]
    constructor
    · rintro ⟨⟨h1, h2⟩, hm⟩
      by_contra hne
      rcases Nat.lt_or_gt_of_ne hne with hlt | hgt
      · have := hnone i h2 hlt
        simp [hm] at this
      · have := le_curStart_of_mark buf b i hgt hb
        omega
    · rintro rfl
      exact ⟨⟨by omega, hab⟩, hb⟩

/-- The cursor only depends on the marks. -/
theorem curStart_congr (buf buf2 : Buffers) (n : Nat)
    (h : ∀ k, k < n → buf2.restartBuffer k = buf.restartBuffer k) :
    (printLoop buf2 n).1 = (printLoop buf n).1 := by
  induction n with
  | zero => rfl
  | succ n ih =>
    rw [curStart_succ, curStart_succ, h n (by omega), ih (fun k hk => h k (by omega))]

theorem emitBlock_congr (buf buf2 : Buffers) (c i L : Nat) (hci : c ≤ i) (hiL : i ≤ L)
    (hsame : ∀ k, k < L → buf2.cmdBuffer k = buf.cmdBuffer k ∧
      buf2.datBuffer k = buf.datBuffer k) :
    emitBlock buf2 c i = emitBlock buf c i := by
  rw [emitBlock_of_le buf2 c i hci, emitBlock_of_le buf c i hci]
  have htx : (List.range (i - c)).map (fun j => buf2.cmdBuffer (c + j)) =
      (List.range (i - c)).map (fun j => buf.cmdBuffer (c + j)) := by
    apply List.map_congr_left
    intro j hj
    exact (hsame (c + j) (by have := List.mem_range.mp hj; omega)).1
  have hrx : (List.range (i - c)).map (fun j => buf2.datBuffer (c + j)) =
      (List.range (i - c)).map (fun j => buf.datBuffer (c + j)) := by
    apply List.map_congr_left
    intro j hj
    exact (hsame (c + j) (by have := List.mem_range.mp hj; omega)).2
  rw [htx, hrx]
  by_cases h : 1 ≤ i - c
  · rw [(hsame c (by omega)).1]
  · simp [h]

theorem segmenter_eq_nil (n : Nat) (buf : Buffers)
    (hnone : ∀ k, k < n → buf.restartBuffer k = false) : segmenter n buf = [] := by
  rw [segmenter_eq_map, filter_range_eq_nil _ n hnone]
  rfl

theorem iterate_pio0_irq0 (f r : Nat) (hr : r < 256) : pio0_irq0^[f] r = (r + f) % 256 := by
  induction f with
  | zero => simp [Nat.mod_eq_of_lt hr]
  | succ f ih =>
    rw [Function.iterate_succ_apply', ih]
    unfold pio0_irq0
    omega

theorem emitBlock_zero (buf : Buffers) :
    emitBlock buf 0 0 =
      { curStart := 0, i := 0, byteLen := 0, target := none, tx := [], rx := [] } := rfl

theorem empty_block_text :
    Block.text { curStart := 0, i := 0, byteLen := 0, target := none, tx := [], rx := [] } =
      "TX: \nRX: \n\n".toList := by
  decide

theorem targetLabel_eq_joy (b : Byte) : targetLabel b = "JOY".toList ↔ b.val = 0x01 := by
  unfold targetLabel
  by_cases h1 : b.val = 0x01
  · simp [h1]
  · by_cases h2 : b.val = 0x81
    · simp only [h1, h2, if_false, if_true, iff_false]; decide
    · simp only [h1, h2, if_false, iff_false]; decide

theorem targetLabel_eq_mc (b : Byte) : targetLabel b = "MC".toList ↔ b.val = 0x81 := by
  unfold targetLabel
  by_cases h1 : b.val = 0x01
  · have h2 : b.val ≠ 0x81 := by omega
    simp only [h1, h2, if_true, iff_false]; decide
  · by_cases h2 : b.val = 0x81
    · simp [h1, h2]
    · simp only [h1, h2, if_false, iff_false]; decide

theorem targetLabel_eq_unknown (b : Byte) :
    targetLabel b = "UNKNOWN".toList ↔ b.val ≠ 0x01 ∧ b.val ≠ 0x81 := by
  unfold targetLabel
  by_cases h1 : b.val = 0x01
  · simp only [h1, if_true, ne_eq, not_true_eq_false, false_and, iff_false]; decide
  · by_cases h2 : b.val = 0x81
    · simp only [h1, h2, if_false, if_true, ne_eq, not_true_eq_false, and_false, iff_false]
      decide
    · simp [h1, h2]

/-- The extent of every block only depends on the marks. -/
theorem segmenter_extent_congr (n : Nat) (buf buf2 : Buffers)
    (h : ∀ k, k < n → buf2.restartBuffer k = buf.restartBuffer k) :
    (segmenter n buf2).map (fun x => (x.curStart, x.i, x.byteLen)) =
      (segmenter n buf).map (fun x => (x.curStart, x.i, x.byteLen)) := by
  rw [segmenter_eq_map, segmenter_eq_map, List.map_map, List.map_map]
  have hf : (List.range n).filter buf2.restartBuffer =
      (List.range n).filter buf.restartBuffer := by
    apply List.filter_congr
    intro x hx
    exact h x (List.mem_range.mp hx)
  rw [hf]
  apply List.map_congr_left
  intro i hi
  have hin := List.mem_range.mp (List.mem_filter.mp hi).1
  simp only [Function.comp, emitBlock]
  rw [curStart_congr buf buf2 i (fun k hk => h k (by omega))]

theorem isTransaction_emitBlock (buf : Buffers) (c i : Nat) (hci : c ≤ i) :
    (emitBlock buf c i).isTransaction = decide (1 ≤ i - c) := by
  rw [emitBlock_of_le buf c i hci]
  by_cases h : 1 ≤ i - c <;> simp [Block.isTransaction, h]

set_option maxRecDepth 1000000 in
theorem count_multiples_of_eight :
    ((List.range 4096).filter (fun i => decide (i % 8 = 0))).length = 512 := by
  decide

set_option maxRecDepth 1000000 in
theorem count_positive_multiples_of_eight :
    ((List.range 4096).filter (fun i => decide (i % 8 = 0 ∧ i ≠ 0))).length = 511 := by
  decide

theorem stress_marks_filter (buf : Buffers)
    (hmarks : ∀ i, i < BUFF_LEN → buf.restartBuffer i = decide (i % 8 = 0)) :
    (List.range BUFF_LEN).filter buf.restartBuffer =
      (List.range 4096).filter (fun i => decide (i % 8 = 0)) := by
  apply List.filter_congr
  intro x hx
  exact hmarks x (List.mem_range.mp hx)

/-- With a mark every 8 samples the loop prints 512 blocks. -/
theorem stress_block_count (buf : Buffers)
    (hmarks : ∀ i, i < BUFF_LEN → buf.restartBuffer i = decide (i % 8 = 0)) :
    (mainPrint buf).length = 512 := by
  unfold mainPrint
  rw [segmenter_eq_map, List.length_map, stress_marks_filter buf hmarks]
  exact count_multiples_of_eight

/-- With a mark every 8 samples, 511 of the printed blocks carry a Target line. -/
theorem stress_transaction_count (buf : Buffers)
    (hmarks : ∀ i, i < BUFF_LEN → buf.restartBuffer i = decide (i % 8 = 0)) :
    ((mainPrint buf).filter Block.isTransaction).length = 511 := by
  unfold mainPrint
  rw [segmenter_eq_map, List.filter_map, List.length_map, List.filter_filter]
  have hf : ∀ i, i ∈ List.range BUFF_LEN →
      ((Block.isTransaction ∘ fun i => emitBlock buf (printLoop buf i).1 i) i &&
        buf.restartBuffer i) = decide (i % 8 = 0 ∧ i ≠ 0) := by
    intro i hi
    have hi2 : i < BUFF_LEN := List.mem_range.mp hi
    rw [hmarks i hi2]
    simp only [Function.comp, isTransaction_emitBlock buf _ i (curStart_le buf i)]
    by_cases h0 : i = 0
    · subst h0
      simp [printLoop_zero]
    · have := curStart_lt buf i (by omega)
      have h1 : 1 ≤ i - (printLoop buf i).1 := by omega
      simp [h1, h0]
  rw [List.filter_congr hf]
  exact count_positive_multiples_of_eight

/-- With a mark every 8 samples, the first printed block is the empty one. -/
theorem stress_first_block (buf : Buffers)
    (hmarks : ∀ i, i < BUFF_LEN → buf.restartBuffer i = decide (i % 8 = 0)) :
    (mainPrint buf).head? =
      some { curStart := 0, i := 0, byteLen := 0, target := none, tx := [], rx := [] } := by
  obtain ⟨rest, hrest⟩ := filter_range_head buf.restartBuffer BUFF_LEN 0 (by decide)
    (by rw [hmarks 0 (by decide)]; rfl) (by omega)
  unfold mainPrint
  rw [segmenter_eq_map, hrest]
  simp [printLoop_zero, emitBlock_zero]

set_option maxRecDepth 1000000 in
theorem fmt02X_byte (b : Byte) :
    fmt02X b.val = [hexUpperDigit (b.val / 16), hexUpperDigit (b.val % 16)] ∧
    parseHex (fmt02X b.val) = some b.val := by
  revert b
  decide

theorem printHexBytes_eq (bs : List Byte) :
    printHexBytes bs =
      bs.flatMap (fun b =>
        [hexUpperDigit (b.val / 16), hexUpperDigit (b.val % 16)] ++ " ".toList) := by
  unfold printHexBytes
  induction bs with
  | nil => rfl
  | cons b bs ih =>
    simp only [List.flatMap_cons, ih, (fmt02X_byte b).1]

/-! ## Counted loops and the sampling loop -/

theorem forLoop_eq_foldl {σ : Type} (bound : Nat) (body : σ → Nat → σ) :
    ∀ (fuel i : Nat) (s : σ), i ≤ bound → bound - i < fuel →
      forLoop bound body fuel i s =
        some (bound, (List.range' i (bound - i)).foldl body s) := by
  intro fuel
  induction fuel with
  | zero => intro i s _ h; omega
  | succ fuel ih =>
    intro i s hi hf
    unfold forLoop
    by_cases hlt : i < bound
    · have h1 : bound - i = (bound - (i + 1)) + 1 := by omega
      rw [if_pos hlt, ih (i + 1) (body s i) (by omega) (by omega), h1, List.range'_succ]
      simp
    · have h0 : i = bound := by omega
      subst h0
      simp

theorem forLoop_range {σ : Type} (bound : Nat) (body : σ → Nat → σ) (fuel : Nat) (s : σ)
    (hf : bound < fuel) :
    forLoop bound body fuel 0 s = some (bound, (List.range bound).foldl body s) := by
  rw [forLoop_eq_foldl bound body fuel 0 s (by omega) (by omega), List.range_eq_range']
  simp

theorem samplingLoop_zero (env : Nat → Interval) : samplingLoop 0 env = initSampler := rfl

theorem samplingLoop_succ (env : Nat → Interval) (n : Nat) :
    samplingLoop (n + 1) env = sampleStep env (samplingLoop n env) n := by
  simp [samplingLoop, List.range_succ, List.foldl_append]

theorem samplingLoop_restartProto (env : Nat → Interval) (n : Nat) :
    (samplingLoop n env).restartProto = recordAtStart n := by
  cases n with
  | zero => rfl
  | succ n => rw [samplingLoop_succ]; rfl

theorem samplingLoop_reads (env : Nat → Interval) (n : Nat) :
    (samplingLoop n env).reads =
      (List.range n).map (fun i => pio0_irq0^[(env i).firesBefore] (recordAtStart i)) := by
  induction n with
  | zero => rfl
  | succ n ih =>
    rw [samplingLoop_succ, List.range_succ, List.map_append]
    simp only [sampleStep, resetProto, handlerRuns, storeTag, readBytes]
    rw [ih, samplingLoop_restartProto]
    rfl

theorem samplingLoop_writes (env : Nat → Interval) (n : Nat) :
    (samplingLoop n env).cmdWrites = List.range n ∧
    (samplingLoop n env).datWrites = List.range n ∧
    (samplingLoop n env).restartWrites = List.range n := by
  induction n with
  | zero => exact ⟨rfl, rfl, rfl⟩
  | succ n ih =>
    rw [samplingLoop_succ, List.range_succ]
    simp only [sampleStep, resetProto, handlerRuns, storeTag, readBytes]
    rw [ih.1, ih.2.1, ih.2.2]
    exact ⟨rfl, rfl, rfl⟩

theorem samplingLoop_buf (env : Nat → Interval) (n k : Nat) :
    (samplingLoop n env).buf.cmdBuffer k = (if k < n then (env k).cmd else 0) ∧
    (samplingLoop n env).buf.datBuffer k = (if k < n then (env k).dat else 0) ∧
    (samplingLoop n env).buf.restartBuffer k =
      (if k < n then restartTag (pio0_irq0^[(env k).firesBefore] (recordAtStart k))
       else false) := by
  induction n with
  | zero => exact ⟨rfl, rfl, rfl⟩
  | succ n ih =>
    rw [samplingLoop_succ]
    simp only [sampleStep, resetProto, handlerRuns, storeTag, readBytes]
    rw [samplingLoop_restartProto]
    by_cases hk : k = n
    · subst hk
      simp
    · have h1 : (k < n + 1) = (k < n) := by
        apply propext
        omega
      simp only [Function.update_noteq hk, h1]
      exact ih

theorem readValue_eq (i f : Nat) :
    pio0_irq0^[f] (recordAtStart i) = (recordAtStart i + f) % 256 := by
  apply iterate_pio0_irq0
  unfold recordAtStart
  split <;> omega

theorem samplingLoop_reads_get (env : Nat → Interval) (n i : Nat) (hi : i < n) :
    (samplingLoop n env).reads[i]? =
      some ((recordAtStart i + (env i).firesBefore) % 256) := by
  rw [samplingLoop_reads, List.getElem?_map, List.getElem?_range hi]
  simp [readValue_eq]

theorem printPass_eq (n : Nat) (buf : Buffers) : printPass n buf = (buf, printLoop buf n) := by
  induction n with
  | zero => rfl
  | succ n ih =>
    have h : printPass (n + 1) buf = printStepState (printPass n buf) n := by
      simp [printPass, List.range_succ, List.foldl_append]
    rw [h, ih, printLoop_succ]
    unfold printStepState printStep
    by_cases hm : buf.restartBuffer n = true
    · simp [hm]
    · simp [hm]

/-- The printed blocks only depend on the first `n` entries of the three arrays. -/
theorem segmenter_congr (n : Nat) (buf buf2 : Buffers)
    (hmarks : ∀ k, k < n → buf2.restartBuffer k = buf.restartBuffer k)
    (hsame : ∀ k, k < n → buf2.cmdBuffer k = buf.cmdBuffer k ∧
      buf2.datBuffer k = buf.datBuffer k) :
    segmenter n buf2 = segmenter n buf := by
  rw [segmenter_eq_map, segmenter_eq_map]
  have hf : (List.range n).filter buf2.restartBuffer =
      (List.range n).filter buf.restartBuffer := by
    apply List.filter_congr
    intro x hx
    exact hmarks x (List.mem_range.mp hx)
  rw [hf]
  apply List.map_congr_left
  intro i hi
  have hin := List.mem_range.mp (List.mem_filter.mp hi).1
  rw [curStart_congr buf buf2 i (fun k hk => hmarks k (by omega))]
  exact emitBlock_congr buf buf2 _ i n (curStart_le buf i) (by omega) hsame

/-- The bytes printed so far are the samples below the cursor. -/
theorem flatMap_tx_rx (buf : Buffers) (n : Nat) :
    (segmenter n buf).flatMap Block.tx =
      (List.range (printLoop buf n).1).map buf.cmdBuffer ∧
    (segmenter n buf).flatMap Block.rx =
      (List.range (printLoop buf n).1).map buf.datBuffer := by
  induction n with
  | zero => exact ⟨rfl, rfl⟩
  | succ n ih =>
    rw [segmenter_succ, curStart_succ]
    by_cases hm : buf.restartBuffer n = true
    · have hc := curStart_le buf n
      have hsplit : ∀ f : Nat → Byte, (List.range n).map f =
          (List.range (printLoop buf n).1).map f ++
            (List.range (n - (printLoop buf n).1)).map
              (fun j => f ((printLoop buf n).1 + j)) := by
        intro f
        have h1 : n = (printLoop buf n).1 + (n - (printLoop buf n).1) := by omega
        conv_lhs => rw [h1, List.range_add, List.map_append, List.map_map]
        rfl
      simp only [hm, if_true, List.flatMap_append, List.flatMap_cons, List.flatMap_nil,
        List.append_nil, ih.1, ih.2, emitBlock_of_le buf _ n hc]
      exact ⟨(hsplit buf.cmdBuffer).symm, (hsplit buf.datBuffer).symm⟩
    · simp only [hm]
      exact ih

/-- The blocks are printed in the order of the marks that close them. -/
theorem segmenter_closing_indices (buf : Buffers) (n : Nat) :
    (segmenter n buf).map Block.i = (List.range n).filter buf.restartBuffer := by
  rw [segmenter_eq_map, List.map_map]
  conv_rhs => rw [← List.map_id ((List.range n).filter buf.restartBuffer)]
  apply List.map_congr_left
  intro i _
  rfl

/-- Blocks closed at increasing marks do not overlap: each starts at or after the index
that closed the one before. -/
theorem pairwise_blocks_of_marks (buf : Buffers) (l : List Nat)
    (hp : List.Pairwise (fun x y => x < y) l)
    (hmem : ∀ x, x ∈ l → buf.restartBuffer x = true) :
    List.Pairwise (fun a b => (emitBlock buf (printLoop buf a).1 a).i ≤
      (emitBlock buf (printLoop buf b).1 b).curStart) l := by
  induction l with
  | nil => exact List.Pairwise.nil
  | cons a l ih =>
    rw [List.pairwise_cons] at hp ⊢
    refine ⟨?_, ih hp.2 (fun x hx => hmem x (List.mem_cons_of_mem a hx))⟩
    intro b hb
    exact le_curStart_of_mark buf a b (hp.1 b hb) (hmem a (List.mem_cons_self a l))
/-! ## The claims -/

/-- C1: two consecutive marks `a < b` make the loop print exactly one block for the run -/
theorem consecutive_marks_emit_one_transaction (n : Nat) (buf : Buffers) (a b : Nat)
    (hab : a < b) (hbn : b < n)
    (ha : buf.restartBuffer a = true) (hb : buf.restartBuffer b = true)
    (hnone : ∀ k, a < k → k < b → buf.restartBuffer k = false) :
    ∃ blk : Block,
      (segmenter n buf).filter (fun x => decide (x.curStart < b ∧ a < x.i)) = [blk] ∧
      blk.isTransaction = true ∧
      blk.curStart = a ∧ blk.i = b ∧
      blk.target = some (targetLabel (buf.cmdBuffer a)) ∧
      blk.tx.length = b - a ∧ blk.rx.length = b - a ∧
      (∀ j, j < b - a → blk.tx[j]? = some (buf.cmdBuffer (a + j))) ∧
      (∀ j, j < b - a → blk.rx[j]? = some (buf.datBuffer (a + j))) := by
  refine ⟨emitBlock buf a b, filter_overlap_consecutive n buf a b hab hbn ha hb hnone, ?_⟩
  rw [emitBlock_of_le buf a b (by omega)]
  have h1 : 1 ≤ b - a := by omega
  simp [Block.isTransaction, h1]
  constructor
  · intro j hj; simp [List.getElem?_map, List.getElem?_range hj]
  · intro j hj; simp [List.getElem?_map, List.getElem?_range hj]

/-- The run `[2, 5)` of the six-sample scenario, closed by the marks at 2 and 5. -/
theorem consecutive_marks_emit_one_transaction_witness :
    ∃ blk : Block,
      (segmenter 6 (scenarioBuf (fun _ => 0))).filter
          (fun x => decide (x.curStart < 5 ∧ 2 < x.i)) = [blk] ∧
      blk.isTransaction = true ∧
      blk.curStart = 2 ∧ blk.i = 5 ∧
      blk.target = some (targetLabel ((scenarioBuf (fun _ => 0)).cmdBuffer 2)) ∧
      blk.tx.length = 5 - 2 ∧ blk.rx.length = 5 - 2 ∧
      (∀ j, j < 5 - 2 → blk.tx[j]? = some ((scenarioBuf (fun _ => 0)).cmdBuffer (2 + j))) ∧
      (∀ j, j < 5 - 2 → blk.rx[j]? = some ((scenarioBuf (fun _ => 0)).datBuffer (2 + j))) :=
  consecutive_marks_emit_one_transaction 6 (scenarioBuf (fun _ => 0)) 2 5
    (by decide) (by decide) (by decide) (by decide)
    (by intro k h1 h2; interval_cases k <;> decide)

/-- With the only mark at index 1, the unmarked sample 0 is printed as a transaction. -/
theorem leading_run_counterexample :
    leadingBuf.restartBuffer 0 = false ∧ leadingBuf.restartBuffer 1 = true ∧
    segmenter 2 leadingBuf =
      [{ curStart := 0, i := 1, byteLen := 1, target := some "UNKNOWN".toList,
         tx := [0x42], rx := [0x07] }] := by
  decide

/-- C2 (amended): the run before the first mark is printed as the first transaction -/
theorem leading_run_is_emitted (n : Nat) (buf : Buffers) (f : Nat)
    (hf : 0 < f) (hfn : f < n) (hm : buf.restartBuffer f = true)
    (hfirst : ∀ k, k < f → buf.restartBuffer k = false) :
    (∃ blk : Block, (segmenter n buf).head? = some blk ∧
      blk.isTransaction = true ∧ blk.curStart = 0 ∧ blk.i = f ∧
      blk.target = some (targetLabel (buf.cmdBuffer 0)) ∧
      blk.tx.length = f ∧ blk.rx.length = f ∧
      (∀ j, j < f → blk.tx[j]? = some (buf.cmdBuffer j)) ∧
      (∀ j, j < f → blk.rx[j]? = some (buf.datBuffer j))) ∧
    (∀ blk, blk ∈ segmenter n buf →
      blk.curStart = 0 ∨ buf.restartBuffer blk.curStart = true) := by
  constructor
  · refine ⟨emitBlock buf 0 f, ?_, ?_⟩
    · obtain ⟨rest, hrest⟩ := filter_range_head buf.restartBuffer n f hfn hm hfirst
      rw [segmenter_eq_map, hrest]
      simp [curStart_eq_zero buf f hfirst]
    · rw [emitBlock_of_le buf 0 f (by omega)]
      have h1 : 1 ≤ f := hf
      simp [Block.isTransaction, h1]
      constructor
      · intro j hj; simp [List.getElem?_map, List.getElem?_range hj]
      · intro j hj; simp [List.getElem?_map, List.getElem?_range hj]
  · intro blk hblk
    obtain ⟨i, _, _, rfl⟩ := (mem_segmenter buf n blk).mp hblk
    exact curStart_zero_or_mark buf i

/-- A two-sample buffer whose only mark is at index 1. -/
theorem leading_run_is_emitted_witness :
    (∃ blk : Block, (segmenter 2 leadingBuf).head? = some blk ∧
      blk.isTransaction = true ∧ blk.curStart = 0 ∧ blk.i = 1 ∧
      blk.target = some (targetLabel (leadingBuf.cmdBuffer 0)) ∧
      blk.tx.length = 1 ∧ blk.rx.length = 1 ∧
      (∀ j, j < 1 → blk.tx[j]? = some (leadingBuf.cmdBuffer j)) ∧
      (∀ j, j < 1 → blk.rx[j]? = some (leadingBuf.datBuffer j))) ∧
    (∀ blk, blk ∈ segmenter 2 leadingBuf →
      blk.curStart = 0 ∨ leadingBuf.restartBuffer blk.curStart = true) :=
  leading_run_is_emitted 2 leadingBuf 1 (by decide) (by decide) (by decide)
    (by intro k hk; interval_cases k; decide)

/-- C3: nothing from the last mark onwards is printed, and no mark means no output -/
theorem trailing_run_not_emitted (n : Nat) (buf : Buffers) :
    (∀ L, L < n → buf.restartBuffer L = true →
        (∀ k, L < k → k < n → buf.restartBuffer k = false) →
        (∀ blk, blk ∈ segmenter n buf →
            blk.curStart ≤ blk.i ∧ blk.i ≤ L ∧
            blk.tx.length = blk.i - blk.curStart ∧ blk.rx.length = blk.i - blk.curStart ∧
            (∀ j, j < blk.i - blk.curStart →
              blk.tx[j]? = some (buf.cmdBuffer (blk.curStart + j)) ∧
              blk.rx[j]? = some (buf.datBuffer (blk.curStart + j))) ∧
            (blk.target = none ∨ (blk.curStart < L ∧
              blk.target = some (targetLabel (buf.cmdBuffer blk.curStart))))) ∧
        (∀ buf2 : Buffers,
            (∀ k, k < n → buf2.restartBuffer k = buf.restartBuffer k) →
            (∀ k, k < L → buf2.cmdBuffer k = buf.cmdBuffer k ∧
              buf2.datBuffer k = buf.datBuffer k) →
            segmenter n buf2 = segmenter n buf ∧ transcript n buf2 = transcript n buf)) ∧
    ((∀ k, k < n → buf.restartBuffer k = false) →
        segmenter n buf = [] ∧ transcript n buf = []) := by
  constructor
  · intro L hLn hL hlast
    have hle : ∀ i, i < n → buf.restartBuffer i = true → i ≤ L := by
      intro i hi hm
      by_contra hgt
      have := hlast i (by omega) hi
      simp [hm] at this
    constructor
    · intro blk hblk
      obtain ⟨i, hi, hm, rfl⟩ := (mem_segmenter buf n blk).mp hblk
      have hc := curStart_le buf i
      have hiL := hle i hi hm
      rw [emitBlock_of_le buf _ i hc]
      dsimp only
      refine ⟨hc, hiL, by simp, by simp, ?_, ?_⟩
      · intro j hj
        simp [List.getElem?_map, List.getElem?_range hj]
      · by_cases h : 1 ≤ i - (printLoop buf i).1
        · right
          exact ⟨by omega, by simp [h]⟩
        · left
          simp [h]
    · intro buf2 hmarks hsame
      have hseg : segmenter n buf2 = segmenter n buf := by
        rw [segmenter_eq_map, segmenter_eq_map]
        have hf : (List.range n).filter buf2.restartBuffer =
            (List.range n).filter buf.restartBuffer := by
          apply List.filter_congr
          intro x hx
          exact hmarks x (List.mem_range.mp hx)
        rw [hf]
        apply List.map_congr_left
        intro i hi
        obtain ⟨hin, hm⟩ := List.mem_filter.mp hi
        have hin2 := List.mem_range.mp hin
        rw [curStart_congr buf buf2 i (fun k hk => hmarks k (by omega))]
        exact emitBlock_congr buf buf2 _ i L (curStart_le buf i) (hle i hin2 hm) hsame
      exact ⟨hseg, by unfold transcript; rw [hseg]⟩
  · intro hnone
    have h := segmenter_eq_nil n buf hnone
    exact ⟨h, by unfold transcript; rw [h]; rfl⟩

/-- The six-sample scenario with its last mark at 5, and a three-sample buffer without
marks. -/
theorem trailing_run_not_emitted_witness :
    (∀ blk, blk ∈ segmenter 6 (scenarioBuf (fun _ => 0)) → blk.i ≤ 5) ∧
    (segmenter 6 (scenarioBuf (fun i => Fin.ofNat i)) =
      segmenter 6 (scenarioBuf (fun i => if i < 5 then Fin.ofNat i else 0))) ∧
    segmenter 3 (bufferOf [1, 2, 3] [4, 5, 6] []) = [] ∧
    transcript 3 (bufferOf [1, 2, 3] [4, 5, 6] []) = [] := by
  have h1 := (trailing_run_not_emitted 6 (scenarioBuf (fun _ => 0))).1 5
    (by decide) (by decide) (by intro k h1 h2; omega)
  have h2 := ((trailing_run_not_emitted 6
    (scenarioBuf (fun i => if i < 5 then Fin.ofNat i else 0))).1 5
    (by decide) (by decide) (by intro k h1 h2; omega)).2
    (scenarioBuf (fun i => Fin.ofNat i)) (fun _ _ => rfl)
    (fun k hk => ⟨rfl, by simp [scenarioBuf, hk]⟩)
  have h3 := (trailing_run_not_emitted 3 (bufferOf [1, 2, 3] [4, 5, 6] [])).2
    (fun _ _ => rfl)
  exact ⟨fun blk hblk => (h1.1 blk hblk).2.1, h2.1, h3.1, h3.2⟩

/-- One handler run leaves the tag clear, two runs set it. -/
theorem resync_rule_counterexample :
    restartTag 1 = false ∧ restartTag 2 = true ∧
    ¬ (restartTag 1 = true ↔ 1 % 2 = 1) ∧
    samplingTags 0 [0, 2, 1, 0, 3] = [false, true, false, false, true] ∧
    samplingTags 0 [0, 2, 1, 0, 3] ≠ [false, false, true, false, true] := by
  decide

/-- C4 (amended): the tag is set exactly when half of the value read from the record is
odd -/
theorem resync_rule_half_is_odd (c f : Nat) :
    (restartTag c = true ↔ c / 2 % 2 = 1) ∧
    (restartTag c = true ↔ c % 4 = 2 ∨ c % 4 = 3) ∧
    samplingTags 0 [f] = [decide ((f % 256) / 2 % 2 = 1)] ∧
    samplingTags 0 [0, 2, 1, 0, 3] = [false, true, false, false, true] := by
  refine ⟨?_, ?_, ?_, by decide⟩
  · unfold restartTag
    simp only [decide_eq_true_eq]
    omega
  · unfold restartTag
    simp only [decide_eq_true_eq]
    omega
  · simp only [samplingTags, iterate_pio0_irq0 f 0 (by omega), restartTag, Nat.zero_add]
    congr 1
    simp only [decide_eq_decide]
    omega

/-- A mark on sample 0 makes the loop print two empty lines and a blank line. -/
theorem zero_length_run_counterexample :
    (bufferOf [0x81] [0x5A] [0]).restartBuffer 0 = true ∧
    segmenter 1 (bufferOf [0x81] [0x5A] [0]) =
      [{ curStart := 0, i := 0, byteLen := 0, target := none, tx := [], rx := [] }] ∧
    transcript 1 (bufferOf [0x81] [0x5A] [0]) = "TX: \nRX: \n\n".toList := by
  decide

/-- C5 (amended): a run of length 0 gets no Target line, but its empty TX and RX lines and
the blank line are still printed -/
theorem zero_length_run_prints_empty_lines (n : Nat) (buf : Buffers)
    (hn : 0 < n) (h0 : buf.restartBuffer 0 = true) :
    (∃ blk : Block, (segmenter n buf).head? = some blk ∧
      blk.curStart = 0 ∧ blk.i = 0 ∧ blk.byteLen = 0 ∧
      blk.target = none ∧ blk.tx = [] ∧ blk.rx = [] ∧
      blk.text = "TX: \nRX: \n\n".toList) ∧
    (∀ blk, blk ∈ segmenter n buf → blk.byteLen = 0 →
      blk.i = 0 ∧ blk.target = none ∧ blk.text = "TX: \nRX: \n\n".toList) := by
  constructor
  · refine ⟨emitBlock buf 0 0, ?_, rfl, rfl, rfl, rfl, rfl, rfl,
      by rw [emitBlock_zero]; exact empty_block_text⟩
    obtain ⟨rest, hrest⟩ := filter_range_head buf.restartBuffer n 0 hn h0 (by omega)
    rw [segmenter_eq_map, hrest]
    simp [printLoop_zero]
  · intro blk hblk hlen
    obtain ⟨i, hi, hm, rfl⟩ := (mem_segmenter buf n blk).mp hblk
    have hi0 : i = 0 := by
      by_contra hne
      have h1 := curStart_lt buf i (by omega)
      rw [emitBlock_of_le buf _ i (by omega)] at hlen
      dsimp only at hlen
      omega
    subst hi0
    rw [printLoop_zero]
    exact ⟨rfl, rfl, by rw [emitBlock_zero]; exact empty_block_text⟩

/-- The six-sample scenario has a mark on sample 0. -/
theorem zero_length_run_prints_empty_lines_witness :
    (∃ blk : Block, (segmenter 6 (scenarioBuf (fun _ => 0))).head? = some blk ∧
      blk.curStart = 0 ∧ blk.i = 0 ∧ blk.byteLen = 0 ∧
      blk.target = none ∧ blk.tx = [] ∧ blk.rx = [] ∧
      blk.text = "TX: \nRX: \n\n".toList) ∧
    (∀ blk, blk ∈ segmenter 6 (scenarioBuf (fun _ => 0)) → blk.byteLen = 0 →
      blk.i = 0 ∧ blk.target = none ∧ blk.text = "TX: \nRX: \n\n".toList) :=
  zero_length_run_prints_empty_lines 6 (scenarioBuf (fun _ => 0)) (by decide) (by decide)

/-- Marks at indices 1 and 2: sample 1 is printed as a transaction of its own. -/
theorem adjacent_marks_counterexample :
    (bufferOf [0x10, 0x01, 0x20] [0xA0, 0xA1, 0xA2] [1, 2]).restartBuffer 1 = true ∧
    (bufferOf [0x10, 0x01, 0x20] [0xA0, 0xA1, 0xA2] [1, 2]).restartBuffer 2 = true ∧
    segmenter 3 (bufferOf [0x10, 0x01, 0x20] [0xA0, 0xA1, 0xA2] [1, 2]) =
      [{ curStart := 0, i := 1, byteLen := 1, target := some "UNKNOWN".toList,
         tx := [0x10], rx := [0xA0] },
       { curStart := 1, i := 2, byteLen := 1, target := some "JOY".toList,
         tx := [0x01], rx := [0xA1] }] := by
  decide

/-- C6 (amended): marks at adjacent indices `i` and `i + 1` close a run of length 1, printed
as one transaction holding exactly sample `i` -/
theorem adjacent_marks_emit_single_sample (n : Nat) (buf : Buffers) (i : Nat)
    (hin : i + 1 < n)
    (hi : buf.restartBuffer i = true) (hi1 : buf.restartBuffer (i + 1) = true) :
    ∃ blk : Block,
      (segmenter n buf).filter (fun x => decide (x.curStart < i + 1 ∧ i < x.i)) = [blk] ∧
      blk.isTransaction = true ∧ blk.curStart = i ∧ blk.i = i + 1 ∧ blk.byteLen = 1 ∧
      blk.target = some (targetLabel (buf.cmdBuffer i)) ∧
      blk.tx = [buf.cmdBuffer i] ∧ blk.rx = [buf.datBuffer i] := by
  refine ⟨emitBlock buf i (i + 1),
    filter_overlap_consecutive n buf i (i + 1) (by omega) hin hi hi1
      (fun k h1 h2 => by omega), ?_⟩
  rw [emitBlock_of_le buf i (i + 1) (by omega)]
  simp [Block.isTransaction, List.range_succ]

/-- Marks at indices 1 and 2 of a three-sample buffer. -/
theorem adjacent_marks_emit_single_sample_witness :
    ∃ blk : Block,
      (segmenter 3 (bufferOf [0x10, 0x01, 0x20] [0xA0, 0xA1, 0xA2] [1, 2])).filter
        (fun x => decide (x.curStart < 1 + 1 ∧ 1 < x.i)) = [blk] ∧
      blk.isTransaction = true ∧ blk.curStart = 1 ∧ blk.i = 1 + 1 ∧ blk.byteLen = 1 ∧
      blk.target = some (targetLabel
        ((bufferOf [0x10, 0x01, 0x20] [0xA0, 0xA1, 0xA2] [1, 2]).cmdBuffer 1)) ∧
      blk.tx = [(bufferOf [0x10, 0x01, 0x20] [0xA0, 0xA1, 0xA2] [1, 2]).cmdBuffer 1] ∧
      blk.rx = [(bufferOf [0x10, 0x01, 0x20] [0xA0, 0xA1, 0xA2] [1, 2]).datBuffer 1] :=
  adjacent_marks_emit_single_sample 3 (bufferOf [0x10, 0x01, 0x20] [0xA0, 0xA1, 0xA2] [1, 2])
    1 (by decide) (by decide) (by decide)

/-- C7: the Target label of a printed transaction is a function of its first command byte
only, and the command bytes never influence which samples a block covers -/
theorem target_label_classification (n : Nat) (buf : Buffers) (blk : Block) (l : List Char)
    (hblk : blk ∈ segmenter n buf) (hl : blk.target = some l) :
    l = targetLabel (buf.cmdBuffer blk.curStart) ∧
    (l = "JOY".toList ↔ (buf.cmdBuffer blk.curStart).val = 0x01) ∧
    (l = "MC".toList ↔ (buf.cmdBuffer blk.curStart).val = 0x81) ∧
    (l = "UNKNOWN".toList ↔
      (buf.cmdBuffer blk.curStart).val ≠ 0x01 ∧ (buf.cmdBuffer blk.curStart).val ≠ 0x81) ∧
    (∀ buf2 : Buffers, (∀ k, k < n → buf2.restartBuffer k = buf.restartBuffer k) →
      (segmenter n buf2).map (fun x => (x.curStart, x.i, x.byteLen)) =
        (segmenter n buf).map (fun x => (x.curStart, x.i, x.byteLen))) := by
  obtain ⟨i, hi, hm, rfl⟩ := (mem_segmenter buf n blk).mp hblk
  have hlab : l = targetLabel (buf.cmdBuffer (printLoop buf i).1) := by
    rw [emitBlock_of_le buf _ i (curStart_le buf i)] at hl
    dsimp only at hl
    by_cases h : 1 ≤ i - (printLoop buf i).1
    · simp only [h, if_true, Option.some.injEq] at hl
      exact hl.symm
    · simp [h] at hl
  have hcs : (emitBlock buf (printLoop buf i).1 i).curStart = (printLoop buf i).1 := rfl
  rw [hcs, hlab]
  exact ⟨rfl, targetLabel_eq_joy _, targetLabel_eq_mc _, targetLabel_eq_unknown _,
    fun buf2 h => segmenter_extent_congr n buf buf2 h⟩

/-- The transaction `[2, 5)` of the six-sample scenario starts with command byte 0x81. -/
theorem target_label_classification_witness :
    "MC".toList = targetLabel ((scenarioBuf (fun _ => 0)).cmdBuffer 2) ∧
    ("MC".toList = "JOY".toList ↔ ((scenarioBuf (fun _ => 0)).cmdBuffer 2).val = 0x01) ∧
    ("MC".toList = "MC".toList ↔ ((scenarioBuf (fun _ => 0)).cmdBuffer 2).val = 0x81) ∧
    ("MC".toList = "UNKNOWN".toList ↔
      ((scenarioBuf (fun _ => 0)).cmdBuffer 2).val ≠ 0x01 ∧
      ((scenarioBuf (fun _ => 0)).cmdBuffer 2).val ≠ 0x81) ∧
    (∀ buf2 : Buffers,
      (∀ k, k < 6 → buf2.restartBuffer k = (scenarioBuf (fun _ => 0)).restartBuffer k) →
      (segmenter 6 buf2).map (fun x => (x.curStart, x.i, x.byteLen)) =
        (segmenter 6 (scenarioBuf (fun _ => 0))).map
          (fun x => (x.curStart, x.i, x.byteLen))) :=
  target_label_classification 6 (scenarioBuf (fun _ => 0))
    { curStart := 2, i := 5, byteLen := 3, target := some "MC".toList,
      tx := [0x81, 0x10, 0x20], rx := [0, 0, 0] } "MC".toList (by decide) rfl

/-- The six-sample scenario prints two transactions, not one. -/
theorem end_to_end_counterexample :
    segmenter 6 (scenarioBuf (fun _ => 0)) =
      [{ curStart := 0, i := 0, byteLen := 0, target := none, tx := [], rx := [] },
       { curStart := 0, i := 2, byteLen := 2, target := some "JOY".toList,
         tx := [0x01, 0x42], rx := [0, 0] },
       { curStart := 2, i := 5, byteLen := 3, target := some "MC".toList,
         tx := [0x81, 0x10, 0x20], rx := [0, 0, 0] }] ∧
    ((segmenter 6 (scenarioBuf (fun _ => 0))).filter Block.isTransaction).length = 2 := by
  decide

/-- C8 (amended): on the six-sample scenario the loop prints an empty block for the mark at
index 0 and then two transactions, `[0, 2)` labelled JOY and `[2, 5)` labelled MC; sample 5
is never printed -/
theorem end_to_end_scenario (dat : Nat → Byte) :
    segmenter 6 (scenarioBuf dat) =
      [{ curStart := 0, i := 0, byteLen := 0, target := none, tx := [], rx := [] },
       { curStart := 0, i := 2, byteLen := 2, target := some "JOY".toList,
         tx := [0x01, 0x42], rx := [dat 0, dat 1] },
       { curStart := 2, i := 5, byteLen := 3, target := some "MC".toList,
         tx := [0x81, 0x10, 0x20], rx := [dat 2, dat 3, dat 4] }] ∧
    ((segmenter 6 (scenarioBuf dat)).filter Block.isTransaction).length = 2 ∧
    (segmenter 6 (scenarioBuf dat)).map (fun b => printHexBytes b.tx) =
      ["".toList, "01 42 ".toList, "81 10 20 ".toList] := by
  have h : segmenter 6 (scenarioBuf dat) =
      [{ curStart := 0, i := 0, byteLen := 0, target := none, tx := [], rx := [] },
       { curStart := 0, i := 2, byteLen := 2, target := some "JOY".toList,
         tx := [0x01, 0x42], rx := [dat 0, dat 1] },
       { curStart := 2, i := 5, byteLen := 3, target := some "MC".toList,
         tx := [0x81, 0x10, 0x20], rx := [dat 2, dat 3, dat 4] }] := rfl
  rw [h]
  refine ⟨rfl, rfl, ?_⟩
  simp only [List.map_cons, List.map_nil]
  decide

/-- A full buffer of zero bytes with a mark every 8 samples prints 511 transactions. -/
theorem stress_counterexample :
    (∀ i, i < BUFF_LEN →
      (stressBuf (fun _ => 0) (fun _ => 0)).restartBuffer i = decide (i % 8 = 0)) ∧
    ((mainPrint (stressBuf (fun _ => 0) (fun _ => 0))).filter Block.isTransaction).length
      = 511 ∧
    ((mainPrint (stressBuf (fun _ => 0) (fun _ => 0))).filter Block.isTransaction).length
      ≠ 512 ∧
    (mainPrint (stressBuf (fun _ => 0) (fun _ => 0))).head? =
      some { curStart := 0, i := 0, byteLen := 0, target := none, tx := [], rx := [] } := by
  have h := stress_transaction_count (stressBuf (fun _ => 0) (fun _ => 0)) (fun _ _ => rfl)
  refine ⟨fun _ _ => rfl, h, by rw [h]; decide, ?_⟩
  exact stress_first_block (stressBuf (fun _ => 0) (fun _ => 0)) (fun _ _ => rfl)

/-- C9 (amended): with a mark every 8 samples over the full buffer the loop prints 512
blocks; the first is empty and has no Target line, the other 511 are transactions of
length 8, and nothing from index 4088 onwards is printed -/
theorem full_buffer_stress (buf : Buffers)
    (hmarks : ∀ i, i < BUFF_LEN → buf.restartBuffer i = decide (i % 8 = 0)) :
    (mainPrint buf).length = 512 ∧
    (mainPrint buf).head? =
      some { curStart := 0, i := 0, byteLen := 0, target := none, tx := [], rx := [] } ∧
    ((mainPrint buf).filter Block.isTransaction).length = 511 ∧
    (∀ blk, blk ∈ mainPrint buf → blk.isTransaction = true →
      blk.byteLen = 8 ∧ blk.tx.length = 8 ∧ blk.rx.length = 8 ∧
      blk.i = blk.curStart + 8 ∧ blk.i ≤ 4088) := by
  refine ⟨stress_block_count buf hmarks, stress_first_block buf hmarks,
    stress_transaction_count buf hmarks, ?_⟩
  intro blk hblk htr
  obtain ⟨i, hi, hm, rfl⟩ := (mem_segmenter buf BUFF_LEN blk).mp hblk
  have hB : BUFF_LEN = 4096 := rfl
  have hi8 : i % 8 = 0 := by simpa [hmarks i hi] using hm
  rw [isTransaction_emitBlock buf _ i (curStart_le buf i)] at htr
  have hlen : 1 ≤ i - (printLoop buf i).1 := by simpa using htr
  have hcs : (printLoop buf i).1 = i - 8 := by
    apply curStart_eq_of_mark buf (i - 8) i (by omega)
    · rw [hmarks (i - 8) (by omega)]
      simp only [decide_eq_true_eq]
      omega
    · intro k hk1 hk2
      rw [hmarks k (by omega)]
      simp only [decide_eq_false_iff_not]
      omega
  rw [hcs, emitBlock_of_le buf (i - 8) i (by omega)]
  dsimp only
  have h8 : i - (i - 8) = 8 := by omega
  rw [h8]
  refine ⟨rfl, by simp, by simp, by omega, by omega⟩

/-- A full buffer whose command bytes count upwards, with a mark every 8 samples. -/
theorem full_buffer_stress_witness :
    (mainPrint (stressBuf (fun i => Fin.ofNat i) (fun _ => 0))).length = 512 ∧
    (mainPrint (stressBuf (fun i => Fin.ofNat i) (fun _ => 0))).head? =
      some { curStart := 0, i := 0, byteLen := 0, target := none, tx := [], rx := [] } ∧
    ((mainPrint (stressBuf (fun i => Fin.ofNat i) (fun _ => 0))).filter
      Block.isTransaction).length = 511 ∧
    (∀ blk, blk ∈ mainPrint (stressBuf (fun i => Fin.ofNat i) (fun _ => 0)) →
      blk.isTransaction = true →
      blk.byteLen = 8 ∧ blk.tx.length = 8 ∧ blk.rx.length = 8 ∧
      blk.i = blk.curStart + 8 ∧ blk.i ≤ 4088) :=
  full_buffer_stress (stressBuf (fun i => Fin.ofNat i) (fun _ => 0)) (fun _ _ => rfl)

/-- Every printed byte is followed by a space, so the TX and RX lines end in a space. -/
theorem transcript_format_counterexample :
    segmenter 4 (bufferOf [0x81, 0x10, 0x20, 0x01] [0xFF, 0x5A, 0x00, 0x00] [3]) =
      [{ curStart := 0, i := 3, byteLen := 3, target := some "MC".toList,
         tx := [0x81, 0x10, 0x20], rx := [0xFF, 0x5A, 0x00] }] ∧
    transcript 4 (bufferOf [0x81, 0x10, 0x20, 0x01] [0xFF, 0x5A, 0x00, 0x00] [3]) =
      "Target=MC\nTX: 81 10 20 \nRX: FF 5A 00 \n\n".toList ∧
    specBlockText "MC".toList [0x81, 0x10, 0x20] [0xFF, 0x5A, 0x00] =
      "Target=MC\nTX: 81 10 20\nRX: FF 5A 00\n\n".toList ∧
    transcript 4 (bufferOf [0x81, 0x10, 0x20, 0x01] [0xFF, 0x5A, 0x00, 0x00] [3]) ≠
      specBlockText "MC".toList [0x81, 0x10, 0x20] [0xFF, 0x5A, 0x00] := by
  decide

/-- C10 (amended): a printed transaction is the line `Target=` with one of the three labels,
the line `TX: ` with every command byte as two upper-case hexadecimal digits followed by one
space, the line `RX: ` with the response bytes printed the same way, and a blank line; each
two-digit group reads back as the byte -/
theorem transcript_format (n : Nat) (buf : Buffers) (blk : Block) (l : List Char)
    (hblk : blk ∈ segmenter n buf) (hl : blk.target = some l) :
    (l = "JOY".toList ∨ l = "MC".toList ∨ l = "UNKNOWN".toList) ∧
    1 ≤ blk.tx.length ∧ blk.rx.length = blk.tx.length ∧
    blk.text =
      "Target=".toList ++ l ++ "\n".toList ++
      "TX: ".toList ++
        blk.tx.flatMap (fun b =>
          [hexUpperDigit (b.val / 16), hexUpperDigit (b.val % 16)] ++ " ".toList) ++
        "\n".toList ++
      "RX: ".toList ++
        blk.rx.flatMap (fun b =>
          [hexUpperDigit (b.val / 16), hexUpperDigit (b.val % 16)] ++ " ".toList) ++
        "\n".toList ++
      "\n".toList ∧
    (∀ b : Byte, b ∈ blk.tx ++ blk.rx →
      fmt02X b.val = [hexUpperDigit (b.val / 16), hexUpperDigit (b.val % 16)] ∧
      hexUpperDigit (b.val / 16) ∈ "0123456789ABCDEF".toList ∧
      hexUpperDigit (b.val % 16) ∈ "0123456789ABCDEF".toList ∧
      parseHex (fmt02X b.val) = some b.val) := by
  obtain ⟨i, hi, hm, rfl⟩ := (mem_segmenter buf n blk).mp hblk
  have hc := curStart_le buf i
  rw [emitBlock_of_le buf _ i hc] at hl ⊢
  dsimp only at hl ⊢
  have hlen : 1 ≤ i - (printLoop buf i).1 := by
    by_contra h
    simp [h] at hl
  simp only [hlen, if_true, Option.some.injEq] at hl
  refine ⟨?_, by simpa using hlen, by simp, ?_, ?_⟩
  · rw [← hl]
    unfold targetLabel
    by_cases h1 : (buf.cmdBuffer (printLoop buf i).1).val = 0x01
    · left; simp [h1]
    · by_cases h2 : (buf.cmdBuffer (printLoop buf i).1).val = 0x81
      · right; left; simp [h1, h2]
      · right; right; simp [h1, h2]
  · simp only [Block.text, hlen, if_true, hl, printHexBytes_eq]
    simp [List.append_assoc]
  · intro b _
    have hd : ∀ d, d < 16 → hexUpperDigit d ∈ "0123456789ABCDEF".toList := by decide
    have hb := b.isLt
    exact ⟨(fmt02X_byte b).1, hd _ (by omega), hd _ (by omega), (fmt02X_byte b).2⟩

/-- The transaction printed for a four-sample buffer with its only mark at index 3. -/
theorem transcript_format_witness :
    ("MC".toList = "JOY".toList ∨ "MC".toList = "MC".toList ∨
      "MC".toList = "UNKNOWN".toList) ∧
    1 ≤ [(0x81 : Byte), 0x10, 0x20].length ∧
    [(0xFF : Byte), 0x5A, 0x00].length = [(0x81 : Byte), 0x10, 0x20].length ∧
    Block.text { curStart := 0, i := 3, byteLen := 3, target := some "MC".toList,
                 tx := [0x81, 0x10, 0x20], rx := [0xFF, 0x5A, 0x00] } =
      "Target=".toList ++ "MC".toList ++ "\n".toList ++
      "TX: ".toList ++
        [(0x81 : Byte), 0x10, 0x20].flatMap (fun b =>
          [hexUpperDigit (b.val / 16), hexUpperDigit (b.val % 16)] ++ " ".toList) ++
        "\n".toList ++
      "RX: ".toList ++
        [(0xFF : Byte), 0x5A, 0x00].flatMap (fun b =>
          [hexUpperDigit (b.val / 16), hexUpperDigit (b.val % 16)] ++ " ".toList) ++
        "\n".toList ++
      "\n".toList ∧
    (∀ b : Byte, b ∈ [(0x81 : Byte), 0x10, 0x20] ++ [(0xFF : Byte), 0x5A, 0x00] →
      fmt02X b.val = [hexUpperDigit (b.val / 16), hexUpperDigit (b.val % 16)] ∧
      hexUpperDigit (b.val / 16) ∈ "0123456789ABCDEF".toList ∧
      hexUpperDigit (b.val % 16) ∈ "0123456789ABCDEF".toList ∧
      parseHex (fmt02X b.val) = some b.val) :=
  transcript_format 4 (bufferOf [0x81, 0x10, 0x20, 0x01] [0xFF, 0x5A, 0x00, 0x00] [3])
    { curStart := 0, i := 3, byteLen := 3, target := some "MC".toList,
      tx := [0x81, 0x10, 0x20], rx := [0xFF, 0x5A, 0x00] } "MC".toList (by decide) rfl

/-- C11: the sampling loop runs exactly `BUFF_LEN` iterations and stops; iteration `i`
stores once to index `i` of each array (the two bytes read and the tag reduced from the
record) and leaves the record at 0 -/
theorem sampling_loop_fills_buffer (env : Nat → Interval) :
    BUFF_LEN = 4096 ∧
    (∀ fuel, BUFF_LEN < fuel →
      forLoop BUFF_LEN (sampleStep env) fuel 0 initSampler =
        some (BUFF_LEN, mainSampling env)) ∧
    (mainSampling env).cmdWrites = List.range BUFF_LEN ∧
    (mainSampling env).datWrites = List.range BUFF_LEN ∧
    (mainSampling env).restartWrites = List.range BUFF_LEN ∧
    (∀ i, i < BUFF_LEN →
      (mainSampling env).buf.cmdBuffer i = (env i).cmd ∧
      (mainSampling env).buf.datBuffer i = (env i).dat ∧
      (mainSampling env).reads[i]? =
        some (pio0_irq0^[(env i).firesBefore] (recordAtStart i)) ∧
      (mainSampling env).buf.restartBuffer i =
        restartTag (pio0_irq0^[(env i).firesBefore] (recordAtStart i))) ∧
    (∀ i, BUFF_LEN ≤ i →
      (mainSampling env).buf.cmdBuffer i = initSampler.buf.cmdBuffer i ∧
      (mainSampling env).buf.datBuffer i = initSampler.buf.datBuffer i ∧
      (mainSampling env).buf.restartBuffer i = initSampler.buf.restartBuffer i) ∧
    (∀ k, k < BUFF_LEN → (samplingLoop (k + 1) env).restartProto = 0) := by
  have hw := samplingLoop_writes env BUFF_LEN
  refine ⟨rfl, ?_, hw.1, hw.2.1, hw.2.2, ?_, ?_, ?_⟩
  · intro fuel hf
    exact forLoop_range BUFF_LEN (sampleStep env) fuel initSampler hf
  · intro i hi
    have hb := samplingLoop_buf env BUFF_LEN i
    unfold mainSampling
    rw [hb.1, hb.2.1, hb.2.2, samplingLoop_reads, List.getElem?_map,
      List.getElem?_range hi]
    simp [hi]
  · intro i hi
    have hb := samplingLoop_buf env BUFF_LEN i
    have hn : ¬ i < BUFF_LEN := by omega
    unfold mainSampling
    rw [hb.1, hb.2.1, hb.2.2]
    simp only [hn, if_false]
    exact ⟨rfl, rfl, rfl⟩
  · intro k _
    rw [samplingLoop_restartProto]
    rfl

/-- Two handler runs between the load and the reset of iteration 0 leave no trace: the
values loaded and the tags stored are those of a run without any handler run. -/
theorem lost_increment_counterexample :
    (lostFireEnv 0).firesMid = 2 ∧
    (samplingLoop 2 lostFireEnv).reads = [1, 0] ∧
    (samplingLoop 2 quietEnv).reads = [1, 0] ∧
    (handlerRuns 2 (storeTag 0 (readBytes (lostFireEnv 0) 0 initSampler))).restartProto = 3 ∧
    (sampleStep lostFireEnv initSampler 0).restartProto = 0 ∧
    (List.range 2).map (samplingLoop 2 lostFireEnv).buf.restartBuffer = [false, false] := by
  decide

/-- C12 (amended): the value loaded in iteration `i` is the record at the start of the
iteration plus the handler runs that came before the load, modulo 256; handler runs between
the load and the reset change no loaded value -/
theorem handler_runs_seen_before_load (n : Nat) (env : Nat → Interval) (i : Nat)
    (hi : i < n) :
    (samplingLoop n env).reads[i]? =
      some ((recordAtStart i + (env i).firesBefore) % 256) ∧
    (recordAtStart i + (env i).firesBefore < 256 →
      (samplingLoop n env).reads[i]? = some (recordAtStart i + (env i).firesBefore)) ∧
    (∀ env2 : Nat → Interval,
      (∀ k, k < n → (env2 k).firesBefore = (env k).firesBefore) →
      (samplingLoop n env2).reads = (samplingLoop n env).reads ∧
      ∀ k, (samplingLoop n env2).buf.restartBuffer k =
        (samplingLoop n env).buf.restartBuffer k) := by
  have h1 := samplingLoop_reads_get env n i hi
  refine ⟨h1, ?_, ?_⟩
  · intro hlt
    rw [h1, Nat.mod_eq_of_lt hlt]
  · intro env2 h2
    constructor
    · rw [samplingLoop_reads, samplingLoop_reads]
      apply List.map_congr_left
      intro k hk
      rw [h2 k (List.mem_range.mp hk)]
    · intro k
      rw [(samplingLoop_buf env2 n k).2.2, (samplingLoop_buf env n k).2.2]
      by_cases hk : k < n
      · simp only [hk, if_true, h2 k hk]
      · simp only [hk, if_false]

/-- Iteration 1 of a run with a double fire before its load and a single fire after it. -/
theorem handler_runs_seen_before_load_witness :
    (samplingLoop 2 doubleFireEnv).reads[1]? = some 2 :=
  ((handler_runs_seen_before_load 2 doubleFireEnv 1 (by decide)).2.1 (by decide))

/-- At 255 the 8-bit record wraps to 0. -/
theorem handler_wrap_counterexample :
    pio0_irq0 255 = 0 ∧ pio0_irq0 255 ≠ 255 + 1 ∧ ¬ (255 < pio0_irq0 255) := by
  decide

/-- C13 (amended): one run of the handler takes the record from `r` to `r + 1` when
`r < 255` and from 255 to 0; starting from a reset record, `k` runs leave `k mod 256` -/
theorem handler_increments_record (r k : Nat) (hr : r < 256) :
    pio0_irq0 r < 256 ∧
    (r < 255 → pio0_irq0 r = r + 1 ∧ r < pio0_irq0 r) ∧
    (r = 255 → pio0_irq0 r = 0) ∧
    pio0_irq0^[k] 0 = k % 256 ∧
    (k < 256 → pio0_irq0^[k] 0 = k) := by
  have hk : pio0_irq0^[k] 0 = k % 256 := by
    rw [iterate_pio0_irq0 k 0 (by omega), Nat.zero_add]
  refine ⟨?_, ?_, ?_, hk, ?_⟩
  · unfold pio0_irq0; omega
  · intro h; unfold pio0_irq0; omega
  · intro h; unfold pio0_irq0; omega
  · intro h; rw [hk, Nat.mod_eq_of_lt h]

/-- A record holding 7, and three handler runs after a reset. -/
theorem handler_increments_record_witness :
    pio0_irq0 7 < 256 ∧
    (7 < 255 → pio0_irq0 7 = 7 + 1 ∧ 7 < pio0_irq0 7) ∧
    (7 = 255 → pio0_irq0 7 = 0) ∧
    pio0_irq0^[3] 0 = 3 % 256 ∧
    (3 < 256 → pio0_irq0^[3] 0 = 3) :=
  handler_increments_record 7 3 (by decide)

/-- C14: the printing pass leaves the three arrays as they are, so a second pass prints the
same blocks and the same text; the output is a function of the first `n` entries of the
arrays -/
theorem print_pass_idempotent (n : Nat) (buf : Buffers) :
    (printPass n buf).1 = buf ∧
    (printPass n buf).2 = printLoop buf n ∧
    (printPass n (printPass n buf).1).2.2 = (printPass n buf).2.2 ∧
    ((printPass n (printPass n buf).1).2.2).flatMap Block.text =
      ((printPass n buf).2.2).flatMap Block.text ∧
    (∀ buf2 : Buffers,
      (∀ k, k < n → buf2.restartBuffer k = buf.restartBuffer k ∧
        buf2.cmdBuffer k = buf.cmdBuffer k ∧ buf2.datBuffer k = buf.datBuffer k) →
      segmenter n buf2 = segmenter n buf ∧ transcript n buf2 = transcript n buf) := by
  have h := printPass_eq n buf
  refine ⟨by rw [h], by rw [h], by simp only [h], by simp only [h], ?_⟩
  intro buf2 hsame
  have hseg := segmenter_congr n buf buf2 (fun k hk => (hsame k hk).1)
    (fun k hk => (hsame k hk).2)
  exact ⟨hseg, by unfold transcript; rw [hseg]⟩

/-- C15: the TX bytes of all printed blocks, in printing order, are the command bytes below
the last mark, the RX bytes are the response bytes below the last mark, and the blocks are
closed at strictly increasing indices -/
theorem printed_bytes_are_samples_below_last_mark (n : Nat) (buf : Buffers) :
    (∀ L, L < n → buf.restartBuffer L = true →
      (∀ k, L < k → k < n → buf.restartBuffer k = false) →
      (segmenter n buf).flatMap Block.tx = (List.range L).map buf.cmdBuffer ∧
      (segmenter n buf).flatMap Block.rx = (List.range L).map buf.datBuffer) ∧
    ((∀ k, k < n → buf.restartBuffer k = false) →
      (segmenter n buf).flatMap Block.tx = [] ∧
      (segmenter n buf).flatMap Block.rx = []) ∧
    List.Pairwise (fun x y => x < y) ((segmenter n buf).map Block.i) ∧
    List.Pairwise (fun x y => x.i ≤ y.curStart) (segmenter n buf) := by
  have h := flatMap_tx_rx buf n
  refine ⟨?_, ?_, ?_, ?_⟩
  · intro L hL hm hlast
    rw [h.1, h.2, curStart_eq_of_mark buf L n hL hm hlast]
    exact ⟨rfl, rfl⟩
  · intro hnone
    rw [segmenter_eq_nil n buf hnone]
    exact ⟨rfl, rfl⟩
  · rw [segmenter_closing_indices]
    exact List.Pairwise.filter _ (List.pairwise_lt_range n)
  · rw [segmenter_eq_map, List.pairwise_map]
    exact pairwise_blocks_of_marks buf _
      (List.Pairwise.filter _ (List.pairwise_lt_range n))
      (fun x hx => (List.mem_filter.mp hx).2)

/-- The six-sample scenario, whose last mark is at index 5, and a buffer without marks. -/
theorem printed_bytes_are_samples_below_last_mark_witness :
    ((segmenter 6 (scenarioBuf (fun i => Fin.ofNat i))).flatMap Block.tx =
        (List.range 5).map (scenarioBuf (fun i => Fin.ofNat i)).cmdBuffer ∧
      (segmenter 6 (scenarioBuf (fun i => Fin.ofNat i))).flatMap Block.rx =
        (List.range 5).map (scenarioBuf (fun i => Fin.ofNat i)).datBuffer) ∧
    ((segmenter 3 (bufferOf [1, 2, 3] [4, 5, 6] [])).flatMap Block.tx = [] ∧
      (segmenter 3 (bufferOf [1, 2, 3] [4, 5, 6] [])).flatMap Block.rx = []) :=
  ⟨(printed_bytes_are_samples_below_last_mark 6 (scenarioBuf (fun i => Fin.ofNat i))).1 5
      (by decide) (by decide) (by intro k h1 h2; omega),
    (printed_bytes_are_samples_below_last_mark 3 (bufferOf [1, 2, 3] [4, 5, 6] [])).2.1
      (fun _ _ => rfl)⟩

/-- C16: the tag stored in iteration `i` is set exactly when half of the value read,
`(r0 + f) mod 256`, is odd, where `r0` is 1 in iteration 0 and 0 afterwards -/
theorem sampling_tag_is_half_odd (n : Nat) (env : Nat → Interval) (i : Nat) (hi : i < n) :
    (samplingLoop n env).reads[i]? =
      some ((recordAtStart i + (env i).firesBefore) % 256) ∧
    recordAtStart 0 = 1 ∧ (1 ≤ i → recordAtStart i = 0) ∧
    ((samplingLoop n env).buf.restartBuffer i = true ↔
      (recordAtStart i + (env i).firesBefore) % 256 / 2 % 2 = 1) ∧
    ((samplingLoop n env).buf.restartBuffer i = true ↔
      (recordAtStart i + (env i).firesBefore) % 256 % 4 = 2 ∨
      (recordAtStart i + (env i).firesBefore) % 256 % 4 = 3) ∧
    (1 ≤ i → (env i).firesBefore = 2 → (samplingLoop n env).buf.restartBuffer i = true) ∧
    (1 ≤ i → (env i).firesBefore = 1 → (samplingLoop n env).buf.restartBuffer i = false) ∧
    (1 ≤ i → (env i).firesBefore = 4 → (samplingLoop n env).buf.restartBuffer i = false) ∧
    (i = 0 → (env i).firesBefore = 1 → (samplingLoop n env).buf.restartBuffer i = true) := by
  have htag : (samplingLoop n env).buf.restartBuffer i =
      restartTag ((recordAtStart i + (env i).firesBefore) % 256) := by
    rw [(samplingLoop_buf env n i).2.2, if_pos hi, readValue_eq]
  have hr1 : ∀ j, 1 ≤ j → recordAtStart j = 0 := by
    intro j hj
    unfold recordAtStart
    rw [if_neg (by omega)]
  refine ⟨samplingLoop_reads_get env n i hi, rfl, hr1 i, ?_, ?_, ?_, ?_, ?_, ?_⟩
  · rw [htag]; unfold restartTag; simp only [decide_eq_true_eq]; omega
  · rw [htag]; unfold restartTag; simp only [decide_eq_true_eq]; omega
  · intro h1 hf; rw [htag, hr1 i h1, hf]; decide
  · intro h1 hf; rw [htag, hr1 i h1, hf]; decide
  · intro h1 hf; rw [htag, hr1 i h1, hf]; decide
  · intro h0 hf; rw [htag, hf, h0]; decide

/-- One handler run before each load: sample 0 is tagged, sample 1 is not. -/
theorem sampling_tag_is_half_odd_witness :
    (samplingLoop 2 singleFireEnv).buf.restartBuffer 0 = true ∧
    (samplingLoop 2 singleFireEnv).buf.restartBuffer 1 = false :=
  ⟨(sampling_tag_is_half_odd 2 singleFireEnv 0 (by decide)).2.2.2.2.2.2.2.2 rfl rfl,
    (sampling_tag_is_half_odd 2 singleFireEnv 1 (by decide)).2.2.2.2.2.2.1 (by decide) rfl⟩

/-- C17: the printing loop finishes after exactly `BUFF_LEN` iterations, keeps
`curStart ≤ i < BUFF_LEN`, never computes a negative `byteLen`, and only reads the arrays
at indices below `BUFF_LEN` -/
theorem print_loop_index_safety (buf : Buffers) :
    (∀ fuel, BUFF_LEN < fuel →
      forLoop BUFF_LEN (printStep buf) fuel 0 (0, []) =
        some (BUFF_LEN, printLoop buf BUFF_LEN)) ∧
    (∀ i, i < BUFF_LEN → (printLoop buf i).1 ≤ i) ∧
    (∀ blk, blk ∈ mainPrint buf →
      blk.curStart ≤ blk.i ∧ blk.i < BUFF_LEN ∧
      blk.byteLen = (blk.i : Int) - (blk.curStart : Int) ∧ 0 ≤ blk.byteLen ∧
      (blk.isTransaction = true → blk.curStart < BUFF_LEN) ∧
      blk.tx.length = blk.byteLen.toNat ∧ blk.rx.length = blk.byteLen.toNat ∧
      (∀ j : Nat, (j : Int) < blk.byteLen →
        blk.curStart + j < BUFF_LEN ∧
        blk.tx[j]? = some (buf.cmdBuffer (blk.curStart + j)) ∧
        blk.rx[j]? = some (buf.datBuffer (blk.curStart + j)))) := by
  refine ⟨?_, fun i _ => curStart_le buf i, ?_⟩
  · intro fuel hf
    exact forLoop_range BUFF_LEN (printStep buf) fuel (0, []) hf
  · intro blk hblk
    obtain ⟨i, hi, hm, rfl⟩ := (mem_segmenter buf BUFF_LEN blk).mp hblk
    have hc := curStart_le buf i
    have hbl : (emitBlock buf (printLoop buf i).1 i).byteLen =
        (i : Int) - ((printLoop buf i).1 : Int) := rfl
    refine ⟨hc, hi, hbl, ?_, ?_, ?_, ?_, ?_⟩
    · rw [hbl]; omega
    · intro _; exact Nat.lt_of_le_of_lt hc hi
    · simp [emitBlock]
    · simp [emitBlock]
    · intro j hj
      rw [hbl] at hj
      have hj2 : j < i - (printLoop buf i).1 := by omega
      rw [emitBlock_of_le buf _ i hc]
      dsimp only
      refine ⟨by omega, ?_, ?_⟩
      · simp [List.getElem?_map, List.getElem?_range hj2]
      · simp [List.getElem?_map, List.getElem?_range hj2]
end MemcardSniffer
